import Mathlib

/-!
Shallow embedding of the calibration engine of `niton_tools.py`
(outlier filtering, group aggregation skeleton, calibration pipeline
skeleton, and the prediction-interval evaluator), together with proofs
settling the specification claims about it.

Numeric values carried by the dataframes are modelled by a linear
ordered field `α` (instantiated with `ℚ` where concrete evaluation is
needed and with `ℝ` where the code applies a real square root).  The
IEEE-754 special values produced by numpy/pandas elementwise division
(`0/0 = nan`, `x/0 = ±inf`, and the fact that every ordered comparison
against `nan` is false) are modelled explicitly by the `PyF` type,
because the outlier filter's behaviour on degenerate groups hinges on
them.  External library routines with no bearing on the claims
(`scipy.odr`, `scipy.stats.t.ppf`, `scipy.stats.chi2.ppf`, the numpy
square root) are taken as function parameters.
-/

namespace NitonTools

/-- Result of a numpy/pandas elementwise float computation: either an
ordinary number or one of the IEEE special values `nan`, `+inf`, `-inf`. -/
inductive PyF (α : Type) where
  | nan : PyF α
  | pinf : PyF α
  | ninf : PyF α
  | num : α → PyF α
deriving DecidableEq

/-- Division of a finite float `a` by a float `b`, with numpy elementwise
semantics: division by zero yields `nan` when the numerator is zero and
`±inf` otherwise; `nan` propagates; a finite numerator divided by an
infinity yields zero. -/
def pyDiv {α : Type} [LinearOrderedField α] (a : α) : PyF α → PyF α
  | .nan => .nan
  | .pinf => .num 0
  | .ninf => .num 0
  | .num b =>
      if b = 0 then
        if a = 0 then .nan else if 0 < a then .pinf else .ninf
      else .num (a / b)

/-- The test `abs z <= t` on a float `z` and a finite threshold `t`:
comparisons against `nan` are false, and `|±inf| = +inf` exceeds every
finite threshold, so only a finite `z` can pass. -/
def pyAbsLe {α : Type} [LinearOrderedField α] (z : PyF α) (t : α) : Bool :=
  match z with
  | .num x => decide (|x| ≤ t)
  | _ => false

variable {α : Type} [LinearOrderedField α]

/-- Mean of a column of values (`Series.mean`). -/
def seriesMean (xs : List α) : α := xs.sum / (xs.length : α)

/-- Sample standard deviation (`Series.std`, `ddof = 1`): `nan` when the
series has fewer than two values, otherwise the square root of the sample
variance.  The square root is the external float routine, passed in as
`sqrtF`. -/
def sampleStd (sqrtF : α → α) (xs : List α) : PyF α :=
  if xs.length ≤ 1 then .nan
  else .num (sqrtF ((xs.map (fun x => (x - seriesMean xs) ^ 2)).sum / ((xs.length : α) - 1)))

/-- Quantile with linear interpolation between order statistics
(`Series.quantile` / `np.percentile` with the default interpolation):
for sorted values `s` and quantile `q`, the virtual index is
`h = q·(n−1)` and the result interpolates between `s[⌊h⌋]` and the next
entry. -/
def quantile [FloorRing α] (xs : List α) (q : α) : α :=
  let s := xs.insertionSort (· ≤ ·)
  let h : α := q * ((s.length : α) - 1)
  let lo : ℕ := (⌊h⌋).toNat
  let hi : ℕ := min (lo + 1) (s.length - 1)
  s.getD lo 0 + (h - (⌊h⌋ : α)) * (s.getD hi 0 - s.getD lo 0)

/-- Median (`Series.median` / `np.median`), i.e. the 50% quantile with
linear interpolation. -/
def median [FloorRing α] (xs : List α) : α := quantile xs (1 / 2)

/-- Row-retention test of the IQR branch of `filter_outliers`: keep `x`
when it lies in `[Q1 − t·IQR, Q3 + t·IQR]` for the group values `vs`. -/
def iqrMask [FloorRing α] (threshold : α) (vs : List α) (x : α) : Bool :=
  let q1 := quantile vs (1 / 4)
  let q3 := quantile vs (3 / 4)
  let iqr := q3 - q1
  decide (q1 - threshold * iqr ≤ x) && decide (x ≤ q3 + threshold * iqr)

/-- Row-retention test of the Z-Score branch of `filter_outliers`: keep `x`
when `|x − mean| / std ≤ t`, where the division follows float semantics
(`std = nan` for a single point; `0/0 = nan`; comparisons with `nan` are
false). -/
def zscoreMask (sqrtF : α → α) (threshold : α) (vs : List α) (x : α) : Bool :=
  pyAbsLe (pyDiv (x - seriesMean vs) (sampleStd sqrtF vs)) threshold

/-- Row-retention test of the MAD branch of `filter_outliers`: keep `x`
when `|0.6745·(x − median) / MAD| ≤ t`, with float division semantics when
`MAD = 0`. -/
def madMask [FloorRing α] (threshold : α) (vs : List α) (x : α) : Bool :=
  let med := median vs
  let mad := median (vs.map (fun v => |v - med|))
  pyAbsLe (pyDiv ((6745 / 10000) * (x - med)) (.num mad)) threshold

/-- IQR branch of `filter_outliers` applied to one group of values. -/
def iqrFilterGroup [FloorRing α] (threshold : α) (g : List α) : List α :=
  g.filter (iqrMask threshold g)

/-- Z-Score branch of `filter_outliers` applied to one group of values. -/
def zscoreFilterGroup (sqrtF : α → α) (threshold : α) (g : List α) : List α :=
  g.filter (zscoreMask sqrtF threshold g)

/-- MAD branch of `filter_outliers` applied to one group of values. -/
def madFilterGroup [FloorRing α] (threshold : α) (g : List α) : List α :=
  g.filter (madMask threshold g)

/-- Outlier-filtering method selected in the UI dropdown
(`'None'`, `'IQR'`, `'Z-Score'`, `'MAD'`; any other string raises). -/
inductive OutlierMethod where
  | noneM : OutlierMethod
  | iqr : OutlierMethod
  | zscore : OutlierMethod
  | mad : OutlierMethod
deriving DecidableEq

/-- Body of the per-group loop of `filter_outliers`, with the method
dispatch and the method-specific default thresholds used when the caller
passes `None` (1.5 for IQR, 3 for Z-Score, 3.5 for MAD); the `'None'`
method returns the data unchanged. -/
def outlierFilterGroup [FloorRing α] (sqrtF : α → α) (method : OutlierMethod)
    (threshold : Option α) (g : List α) : List α :=
  match method with
  | .noneM => g
  | .iqr => iqrFilterGroup (threshold.getD (3 / 2)) g
  | .zscore => zscoreFilterGroup sqrtF (threshold.getD 3) g
  | .mad => madFilterGroup (threshold.getD (7 / 2)) g

/-- One row of the measurements dataframe handed to the calibration part
of the pipeline: the standard identifier (`aliquot` column), the element
(`quantity` column) and the measured value (`mean` column).  The date,
analysis and technique columns only participate in the SQL selection that
produced the dataframe and are omitted. -/
structure Measurement (α : Type) where
  aliquot : String
  quantity : String
  value : α
deriving DecidableEq

/-- One row of the raw query result, before the NaN/zero cleanup; a `none`
value models NaN in the `mean` column. -/
structure RawMeasurement (α : Type) where
  aliquot : String
  quantity : String
  value : Option α
deriving DecidableEq

/-- Keys of `df.groupby(['aliquot', 'quantity'])`: the distinct
(standard, element) pairs of the dataframe.  pandas sorts group keys;
the key order is irrelevant to every property proved here, so the
deduplicated key list is used as is. -/
def groupKeys (df : List (Measurement α)) : List (String × String) :=
  (df.map (fun r => (r.aliquot, r.quantity))).dedup

/-- Rows of one (standard, element) group, in dataframe order. -/
def groupRows (df : List (Measurement α)) (key : String × String) : List (Measurement α) :=
  df.filter (fun r => decide ((r.aliquot, r.quantity) = key))

/-- The `mean` column of one (standard, element) group. -/
def groupValues (df : List (Measurement α)) (key : String × String) : List α :=
  (groupRows df key).map (fun r => r.value)

/-- Mask dispatch of `filter_outliers` for one row value `x` against its
group values `vs`: which branch retains the row. -/
def outlierMask [FloorRing α] (sqrtF : α → α) (method : OutlierMethod)
    (threshold : Option α) (vs : List α) (x : α) : Bool :=
  match method with
  | .noneM => true
  | .iqr => iqrMask (threshold.getD (3 / 2)) vs x
  | .zscore => zscoreMask sqrtF (threshold.getD 3) vs x
  | .mad => madMask (threshold.getD (7 / 2)) vs x

/-- The `filter_outliers` method of `CalibrationEditorUI`: the `'None'`
method returns the dataframe unchanged; otherwise each
(standard, element) group is filtered by the selected method's mask and
the filtered groups are concatenated. -/
def filter_outliers [FloorRing α] (sqrtF : α → α) (method : OutlierMethod)
    (threshold : Option α) (df : List (Measurement α)) : List (Measurement α) :=
  match method with
  | .noneM => df
  | _ =>
      (groupKeys df).flatMap (fun key =>
        (groupRows df key).filter
          (fun r => outlierMask sqrtF method threshold (groupValues df key) r.value))

/-- Lines 1073–1075 of `filter_standards_calibrate`: drop rows whose
`mean` is NaN, then drop rows whose `mean` equals 0. -/
def dropNaNZero (raw : List (RawMeasurement α)) : List (Measurement α) :=
  (raw.filterMap (fun r => r.value.map (fun v => Measurement.mk r.aliquot r.quantity v))).filter
    (fun r => decide (r.value ≠ 0))

/-- Lines 1073–1081 of `filter_standards_calibrate`: the NaN/zero cleanup
followed by outlier filtering produces `self.filtered_measurements`. -/
def filteredMeasurements [FloorRing α] (sqrtF : α → α) (method : OutlierMethod)
    (threshold : Option α) (raw : List (RawMeasurement α)) : List (Measurement α) :=
  filter_outliers sqrtF method threshold (dropNaNZero raw)

/-- One row of `self.standard_element_df` after `process_filtered_standards`:
the per-(standard, element) aggregate joined with the standard definitions.
The percentile, min and max columns are used only by the plotting layer and
are omitted; `sig` is the sample standard deviation of the group (NaN when
the group has one point, modelled by `PyF`). -/
structure StandardElementRow (α : Type) where
  standard : String
  element : String
  meanList : List α
  n : ℕ
  meanOfMeans : α
  sig : PyF α
  standardMean : α
deriving DecidableEq

/-- First two steps of `process_filtered_standards`: group the filtered
measurements by (standard, element), aggregate, left-join the known
standard values (`standMean s e = none` models a NaN in the joined
`standard mean` column) and drop such rows (lines 1174–1199). -/
def joinedStandardRows (sqrtF : α → α) (standMean : String → String → Option α)
    (df : List (Measurement α)) : List (StandardElementRow α) :=
  (groupKeys df).filterMap (fun key =>
    (standMean key.1 key.2).map (fun km =>
      StandardElementRow.mk key.1 key.2 (groupValues df key) (groupValues df key).length
        (seriesMean (groupValues df key)) (sampleStd sqrtF (groupValues df key)) km))

/-- Third step of `process_filtered_standards` (line 1201): drop groups
with fewer than `min_measurements` measurements. -/
def minMeasurementRows (sqrtF : α → α) (minMeasurements : ℕ)
    (standMean : String → String → Option α)
    (df : List (Measurement α)) : List (StandardElementRow α) :=
  (joinedStandardRows sqrtF standMean df).filter
    (fun r => decide (minMeasurements ≤ r.n))

/-- The `process_filtered_standards` method: after the join and the
group-level threshold, drop elements with fewer than `min_standards`
remaining standards (line 1204). -/
def processFilteredStandards (sqrtF : α → α)
    (minMeasurements minStandards : ℕ)
    (standMean : String → String → Option α)
    (df : List (Measurement α)) : List (StandardElementRow α) :=
  (minMeasurementRows sqrtF minMeasurements standMean df).filter (fun r =>
    decide (minStandards ≤ ((minMeasurementRows sqrtF minMeasurements standMean df).filter
      (fun r2 => decide (r2.element = r.element))).length))

/-- The fields of the `scipy.odr` output object that `calibrate` reads:
the fitted slope `beta[0]`, its standard error `sd_beta[0]`, the largest
absolute residual `max |eps|`, the goodness statistic `res_var`, and the
1×1 parameter covariance `cov_beta`.  The regression itself is external
(scipy) and is passed to `calibrate` as a function. -/
structure OdrOutput (α : Type) where
  beta0 : α
  sdBeta0 : α
  epsMax : α
  resVar : α
  covBeta : α
deriving DecidableEq

/-- One row of `self.calibration_df` produced by `calibrate`. -/
structure CalibrationRow (α : Type) where
  element : String
  slope : α
  slopeUnc : α
  yErrMax : α
  reducedVariance : α
  reducedVariance95 : α
  covMatrix : α
  standardsUsed : List String
  measurementsPerStandard : List ℕ
deriving DecidableEq

/-- Elements over which `calibrate` iterates: `self.elements`, the sorted
distinct elements of the processed `standard_element_df`
(`set_element_checkboxes`, lines 993–994). -/
def elementsOf (rows : List (StandardElementRow α)) : List String :=
  ((rows.map (fun r => r.element)).dedup).insertionSort (· ≤ ·)

/-- The `calibrate` method: for each element, collect that element's rows
of `standard_element_df`, skip the element when it has none, and run the
orthogonal-distance regression on (measured means, known means) with the
measured standard deviations and half the known 2-sigma uncertainties.
`runODR` abstracts `odr.ODR(...).run()`; a `none` result models the
`except` branch (the error is printed and the element skipped).
`chi2ppf95 d` abstracts `stats.chi2.ppf(0.95, d)`, looked up at
`dof = n_standards − 1` and divided by `dof`. -/
def calibrate (chi2ppf95 : ℤ → α)
    (runODR : List α → List α → List (PyF α) → List α → Option (OdrOutput α))
    (standSig : String → String → α)
    (rows : List (StandardElementRow α)) : List (CalibrationRow α) :=
  (elementsOf rows).filterMap (fun el =>
    let elRows := rows.filter (fun r => decide (r.element = el))
    let measMeans := elRows.map (fun r => r.meanOfMeans)
    let measSigs := elRows.map (fun r => r.sig)
    let knowMeans := elRows.map (fun r => r.standardMean)
    let knowSigs := elRows.map (fun r => standSig r.standard r.element / 2)
    if elRows.length = 0 then none
    else
      match runODR measMeans knowMeans measSigs knowSigs with
      | none => none
      | some out =>
          some (CalibrationRow.mk el out.beta0 out.sdBeta0 out.epsMax out.resVar
            (chi2ppf95 ((elRows.length : ℤ) - 1) / (((elRows.length : ℤ) - 1 : ℤ) : α))
            out.covBeta
            (elRows.map (fun r => r.standard))
            (elRows.map (fun r => r.n))))

/-- The calibration part of `filter_standards_calibrate`: NaN/zero
cleanup, outlier filtering, aggregation and join, and per-element fitting.
Its result is `self.calibration_df`, the only per-element output the run
produces (the saved JSON serializes it together with the filter metadata
and the per-standard measurement counts; there is no failure record). -/
def calibrationPipeline [FloorRing α] (sqrtF : α → α) (method : OutlierMethod)
    (threshold : Option α) (minMeasurements minStandards : ℕ)
    (standMean : String → String → Option α) (standSig : String → String → α)
    (chi2ppf95 : ℤ → α)
    (runODR : List α → List α → List (PyF α) → List α → Option (OdrOutput α))
    (raw : List (RawMeasurement α)) : List (CalibrationRow α) :=
  calibrate chi2ppf95 runODR standSig
    (processFilteredStandards sqrtF minMeasurements minStandards standMean
      (filteredMeasurements sqrtF method threshold raw))

/-- Standards that contribute an eligible group for element `el` in a
dataframe of (already outlier-filtered) measurements: the group must have
a known reference value and at least `min_measurements` retained
measurements.  This is the specification-side characterization against
which the pipeline's element-level threshold is checked. -/
def eligibleStandards (minMeasurements : ℕ)
    (standMean : String → String → Option α)
    (df : List (Measurement α)) (el : String) : List String :=
  ((groupKeys df).filter (fun k =>
    decide (k.2 = el) && (standMean k.1 k.2).isSome
      && decide (minMeasurements ≤ (groupValues df k).length))).map (fun k => k.1)

/-- The degrees of freedom `n - n_params` that `prediction_interval`
passes to `stats.t.ppf`: `n = len(dfdp[0])` is the length of the first
derivative array — the number of x values the derivatives were evaluated
at — and `n_params = len(dfdp)`. -/
def predictionIntervalDof (dfdp : List (List ℝ)) : ℤ :=
  (dfdp.headI.length : ℤ) - (dfdp.length : ℤ)

/-- The module-level `prediction_interval` function.  `tppf a d`
abstracts the Student-t quantile `stats.t.ppf(a, d)`.  For each requested
significance `s`, `alpha = 1 − (1 − s/100)/2`; the propagated variance
`d` is accumulated over all parameter pairs exactly as the source's
`d += dfdp[j] * dfdp[k] * pcov[j,k]` loop does, starting from
`np.zeros(n)`; the result row for `s` is
`tval · sqrt(yerr² + d)` elementwise.  The source's final `np.squeeze`
only collapses singleton axes of the `(len(signif), n)` result and is
omitted (the embedding always returns the two-dimensional form). -/
noncomputable def prediction_interval (tppf : ℝ → ℤ → ℝ)
    (dfdp : List (List ℝ)) (pcov : List (List ℝ)) (yerr : ℝ)
    (signif : List ℝ) : List (List ℝ) :=
  let nParams := dfdp.length
  let n := dfdp.headI.length
  let alpha := signif.map (fun s => 1 - (1 - s / 100) / 2)
  let tval := alpha.map (fun a => tppf a (predictionIntervalDof dfdp))
  let d := (List.range nParams).foldl (fun acc j =>
    (List.range nParams).foldl (fun acc2 k =>
      List.zipWith (· + ·) acc2
        (List.zipWith (fun a b => a * b * ((pcov.getD j []).getD k 0))
          (dfdp.getD j []) (dfdp.getD k []))) acc)
    (List.replicate n 0)
  tval.map (fun t => d.map (fun di => t * Real.sqrt (yerr ^ 2 + di)))

/-- C9: applying the outlier filter with the IQR method and threshold 1.5
to the group of values {10, 10, 10, 10, 1000} rejects the value 1000 and
retains exactly the four values equal to 10. -/
theorem c9_iqr_rejects_1000 :
    outlierFilterGroup (α := ℚ) id .iqr (some (3 / 2)) [10, 10, 10, 10, 1000]
      = [10, 10, 10, 10] := by
  have h1 : quantile [(10 : ℚ), 10, 10, 10, 1000] (1 / 4) = 10 := by
    norm_num [quantile, List.insertionSort, List.orderedInsert, List.getD]
    all_goals simp
    all_goals norm_num
  have h3 : quantile [(10 : ℚ), 10, 10, 10, 1000] (3 / 4) = 10 := by
    norm_num [quantile, List.insertionSort, List.orderedInsert, List.getD]
    all_goals simp
    all_goals norm_num
  norm_num [outlierFilterGroup, iqrFilterGroup, iqrMask, h1, h3, List.filter]

/-- C3: claimed, every outlier method retains the single point of a group
of size 1.  On the code this holds for the None and IQR branches but
fails for Z-Score and MAD: with one point the sample standard deviation
is NaN (ddof = 1) and the median absolute deviation is 0, so the score is
NaN (0/0), every comparison against the threshold is False, and the point
is dropped.  This theorem evaluates all four branches at the failing
input, a single-point group [10], using each method's default threshold. -/
theorem c3_single_point_group_by_method :
    outlierFilterGroup (α := ℚ) id .noneM none [10] = [10]
    ∧ outlierFilterGroup (α := ℚ) id .iqr none [10] = [10]
    ∧ outlierFilterGroup (α := ℝ) Real.sqrt .zscore none [10] = []
    ∧ outlierFilterGroup (α := ℚ) id .mad none [10] = [] := by
  refine ⟨rfl, ?_, ?_, ?_⟩
  · have h1 : quantile [(10 : ℚ)] (1 / 4) = 10 := by
      norm_num [quantile, List.insertionSort, List.orderedInsert, List.getD]
    have h3 : quantile [(10 : ℚ)] (3 / 4) = 10 := by
      norm_num [quantile, List.insertionSort, List.orderedInsert, List.getD]
    norm_num [outlierFilterGroup, iqrFilterGroup, iqrMask, h1, h3, List.filter]
  · norm_num [outlierFilterGroup, zscoreFilterGroup, zscoreMask, sampleStd, pyDiv,
      pyAbsLe, List.filter]
  · have hm : median [(10 : ℚ)] = 10 := by
      norm_num [median, quantile, List.insertionSort, List.orderedInsert, List.getD]
    norm_num [outlierFilterGroup, madFilterGroup, madMask, hm, pyDiv, pyAbsLe,
      List.filter, median, quantile, List.insertionSort, List.orderedInsert, List.getD]

/-- C4: claimed, a zero-spread group is fully retained by Z-Score (group
standard deviation 0) and MAD (median absolute deviation 0).  On the code
the opposite happens: the scores are NaN (0/0) or ±inf (x/0), every
comparison against the threshold is False, and every point of the group —
outliers and inliers alike — is dropped (no exception is raised).  This
theorem evaluates the code at the failing inputs: Z-Score (default
threshold 3) on [10, 10] and MAD (default threshold 3.5) on [1, 1, 1, 5]
both return the empty group. -/
theorem c4_zero_spread_group_drops_all :
    outlierFilterGroup (α := ℝ) Real.sqrt .zscore none [10, 10] = []
    ∧ outlierFilterGroup (α := ℚ) id .mad none [1, 1, 1, 5] = [] := by
  constructor
  · norm_num [outlierFilterGroup, zscoreFilterGroup, zscoreMask, sampleStd, seriesMean,
      pyDiv, pyAbsLe, List.filter]
  · have hm : median [(1 : ℚ), 1, 1, 5] = 1 := by
      norm_num [median, quantile, List.insertionSort, List.orderedInsert, List.getD]
      all_goals simp
      all_goals norm_num
    have hmad : median [(0 : ℚ), 0, 0, 4] = 0 := by
      norm_num [median, quantile, List.insertionSort, List.orderedInsert, List.getD]
      all_goals simp
    norm_num [outlierFilterGroup, madFilterGroup, madMask, hm, hmad, pyDiv, pyAbsLe,
      List.filter]

/-- C6 counterexample: IQR filtering is not idempotent.  For the group
[1, 1, 1, 1, 10, 20] with threshold 1.5, the first pass keeps
[1, 1, 1, 1, 10] (Q3 = 7.75, upper bound 17.875 rejects 20); on the
result the quartiles collapse (Q1 = Q3 = 1), so a second pass with the
same threshold also rejects 10. -/
theorem c6_iqr_not_idempotent_counterexample :
    iqrFilterGroup ((3 : ℚ) / 2) (iqrFilterGroup ((3 : ℚ) / 2) [1, 1, 1, 1, 10, 20])
      ≠ iqrFilterGroup ((3 : ℚ) / 2) [1, 1, 1, 1, 10, 20] := by
  have hfirst : iqrFilterGroup ((3 : ℚ) / 2) [1, 1, 1, 1, 10, 20] = [1, 1, 1, 1, 10] := by
    have h1 : quantile [(1 : ℚ), 1, 1, 1, 10, 20] (1 / 4) = 1 := by
      norm_num [quantile, List.insertionSort, List.orderedInsert, List.getD]
      all_goals simp
      all_goals norm_num
    have h3 : quantile [(1 : ℚ), 1, 1, 1, 10, 20] (3 / 4) = 31 / 4 := by
      norm_num [quantile, List.insertionSort, List.orderedInsert, List.getD]
      all_goals simp
      all_goals norm_num
    norm_num [iqrFilterGroup, iqrMask, h1, h3, List.filter]
  have hsecond : iqrFilterGroup ((3 : ℚ) / 2) [1, 1, 1, 1, 10] = [1, 1, 1, 1] := by
    have h1 : quantile [(1 : ℚ), 1, 1, 1, 10] (1 / 4) = 1 := by
      norm_num [quantile, List.insertionSort, List.orderedInsert, List.getD]
      all_goals simp
      all_goals norm_num
    have h3 : quantile [(1 : ℚ), 1, 1, 1, 10] (3 / 4) = 1 := by
      norm_num [quantile, List.insertionSort, List.orderedInsert, List.getD]
      all_goals simp
      all_goals norm_num
    norm_num [iqrFilterGroup, iqrMask, h1, h3, List.filter]
  rw [hfirst, hsecond]
  simp

/-- C6 amended: a second application of the IQR filter with the same
threshold returns a sublist of the first application's output — it never
adds points back, but (as the counterexample shows) it may remove further
points, so idempotence fails in general. -/
theorem c6_iqr_refilter_sublist [FloorRing α] (t : α) (g : List α) :
    (iqrFilterGroup t (iqrFilterGroup t g)).Sublist (iqrFilterGroup t g) := by
  exact List.filter_sublist _

/-- C1: the Student-t critical value inside `prediction_interval` is
looked up at `len(dfdp[0]) − len(dfdp)` degrees of freedom, and
`dfdp[0]` holds the derivatives at the *query* x values, not at the data
points used in the fit.  At the only call site
(`plot_filtered_standards`), `dfdp = [cur_x]` with `cur_x` a 100-point
grid, so the dof is 99 regardless of how many standards the fit used —
for a fit through 3 standards the claimed dof would be 3 − 1 = 2. -/
theorem c1_dof_counts_query_points :
    predictionIntervalDof [List.replicate 100 (0 : ℝ)] = 99 ∧ (99 : ℤ) ≠ (3 : ℤ) - 1 := by
  constructor
  · simp [predictionIntervalDof]
  · decide

/-- Outlier filtering only ever removes rows: every row of the filtered
dataframe is a row of the input dataframe. -/
theorem filter_outliers_subset [FloorRing α] (sqrtF : α → α) (method : OutlierMethod)
    (threshold : Option α) (df : List (Measurement α)) (r : Measurement α)
    (h : r ∈ filter_outliers sqrtF method threshold df) : r ∈ df := by
  cases method with
  | noneM => exact h
  | iqr =>
      simp only [filter_outliers, List.mem_flatMap, groupRows, List.mem_filter] at h
      obtain ⟨key, _, ⟨hr, _⟩, _⟩ := h
      exact hr
  | zscore =>
      simp only [filter_outliers, List.mem_flatMap, groupRows, List.mem_filter] at h
      obtain ⟨key, _, ⟨hr, _⟩, _⟩ := h
      exact hr
  | mad =>
      simp only [filter_outliers, List.mem_flatMap, groupRows, List.mem_filter] at h
      obtain ⟨key, _, ⟨hr, _⟩, _⟩ := h
      exact hr

/-- Every row surviving the NaN/zero cleanup has a nonzero value. -/
theorem dropNaNZero_value_ne_zero (raw : List (RawMeasurement α)) (r : Measurement α)
    (h : r ∈ dropNaNZero raw) : r.value ≠ 0 := by
  simp only [dropNaNZero, List.mem_filter, decide_eq_true_eq] at h
  exact h.2

/-- C10: rows whose `mean` is NaN or exactly 0 are removed before outlier
filtering, so a zero value never reaches outlier filtering, any group, or
any calibration fit: every row entering the outlier filter has a nonzero
value, every row of the filtered measurements has a nonzero value, and no
(standard, element) group of the filtered measurements contains the
value 0. -/
theorem c10_zero_and_nan_rows_dropped [FloorRing α] (sqrtF : α → α)
    (method : OutlierMethod) (threshold : Option α) (raw : List (RawMeasurement α)) :
    (∀ r ∈ dropNaNZero raw, r.value ≠ 0)
    ∧ (∀ r ∈ filteredMeasurements sqrtF method threshold raw, r.value ≠ 0)
    ∧ ∀ key, (0 : α) ∉ groupValues (filteredMeasurements sqrtF method threshold raw) key := by
  refine ⟨fun r hr => dropNaNZero_value_ne_zero raw r hr, fun r hr => ?_, fun key h0 => ?_⟩
  · exact dropNaNZero_value_ne_zero raw r
      (filter_outliers_subset sqrtF method threshold (dropNaNZero raw) r hr)
  · simp only [groupValues, groupRows, List.mem_map, List.mem_filter] at h0
    obtain ⟨r, ⟨hr, _⟩, hv⟩ := h0
    exact dropNaNZero_value_ne_zero raw r
      (filter_outliers_subset sqrtF method threshold (dropNaNZero raw) r hr) hv

/-- C10 witness: a concrete run (no outlier method, three raw rows: a
value 5, a NaN, and a 0) in which the surviving row's value is nonzero. -/
theorem c10_witness :
    ((⟨"S1", "Fe", 5⟩ : Measurement ℚ)).value ≠ 0 :=
  (c10_zero_and_nan_rows_dropped (α := ℚ) id .noneM none
      [⟨"S1", "Fe", some 5⟩, ⟨"S1", "Fe", none⟩, ⟨"S1", "Fe", some 0⟩]).2.1
    ⟨"S1", "Fe", 5⟩ (by decide)

/-- Accumulating elementwise sums over a list of addend arrays, as the
`d += ...` loop of `prediction_interval` does, preserves the length and
produces the pointwise sum of the addends. -/
theorem foldl_zipWith_add_spec (f : ℕ → List ℝ) (init : List ℝ) (m : ℕ)
    (hf : ∀ j < m, (f j).length = init.length) :
    (((List.range m).foldl (fun acc j => List.zipWith (· + ·) acc (f j)) init).length
        = init.length)
    ∧ ∀ i, i < init.length →
        ((List.range m).foldl (fun acc j => List.zipWith (· + ·) acc (f j)) init).getD i 0
          = init.getD i 0 + ∑ j ∈ Finset.range m, (f j).getD i 0 := by
  induction m with
  | zero => simp
  | succ m ih =>
      have ihm := ih (fun j hj => hf j (Nat.lt_succ_of_lt hj))
      have hstep : (List.range (m + 1)).foldl
            (fun acc j => List.zipWith (· + ·) acc (f j)) init
          = List.zipWith (· + ·)
              ((List.range m).foldl (fun acc j => List.zipWith (· + ·) acc (f j)) init)
              (f m) := by
        rw [List.range_succ, List.foldl_append, List.foldl_cons, List.foldl_nil]
      have hlenA := ihm.1
      have hlenf := hf m (Nat.lt_succ_self m)
      constructor
      · rw [hstep, List.length_zipWith, hlenA, hlenf, min_self]
      · intro i hi
        have hiz : i < (List.zipWith (· + ·)
            ((List.range m).foldl (fun acc j => List.zipWith (· + ·) acc (f j)) init)
            (f m)).length := by
          rw [List.length_zipWith, hlenA, hlenf, min_self]
          exact hi
        rw [hstep, List.getD_eq_getElem _ _ hiz, List.getElem_zipWith]
        have hiA : i < ((List.range m).foldl
            (fun acc j => List.zipWith (· + ·) acc (f j)) init).length := by
          rw [hlenA]; exact hi
        have hif : i < (f m).length := by rw [hlenf]; exact hi
        rw [← List.getD_eq_getElem _ 0 hiA, ← List.getD_eq_getElem _ 0 hif,
          ihm.2 i hi, Finset.sum_range_succ, add_assoc]

/-- The nested loop of `prediction_interval` over parameter pairs
(an outer fold whose body is an inner fold of elementwise additions)
computes, at each index, the double sum of the addend arrays. -/
theorem foldl_foldl_zipWith_add_spec (term : ℕ → ℕ → List ℝ) (init : List ℝ) (kk m : ℕ)
    (hterm : ∀ j < m, ∀ k < kk, (term j k).length = init.length) :
    (((List.range m).foldl (fun acc j =>
        (List.range kk).foldl (fun acc2 k => List.zipWith (· + ·) acc2 (term j k)) acc)
        init).length = init.length)
    ∧ ∀ i, i < init.length →
        ((List.range m).foldl (fun acc j =>
            (List.range kk).foldl (fun acc2 k => List.zipWith (· + ·) acc2 (term j k)) acc)
            init).getD i 0
          = init.getD i 0
            + ∑ j ∈ Finset.range m, ∑ k ∈ Finset.range kk, (term j k).getD i 0 := by
  induction m with
  | zero => simp
  | succ m ih =>
      have ihm := ih (fun j hj => hterm j (Nat.lt_succ_of_lt hj))
      have hstep : (List.range (m + 1)).foldl (fun acc j =>
            (List.range kk).foldl (fun acc2 k => List.zipWith (· + ·) acc2 (term j k)) acc)
            init
          = (List.range kk).foldl (fun acc2 k => List.zipWith (· + ·) acc2 (term m k))
              ((List.range m).foldl (fun acc j =>
                (List.range kk).foldl (fun acc2 k => List.zipWith (· + ·) acc2 (term j k)) acc)
                init) := by
        rw [List.range_succ, List.foldl_append, List.foldl_cons, List.foldl_nil]
      have hinner := foldl_zipWith_add_spec (term m)
        ((List.range m).foldl (fun acc j =>
          (List.range kk).foldl (fun acc2 k => List.zipWith (· + ·) acc2 (term j k)) acc)
          init) kk
        (fun k hk => by rw [ihm.1]; exact hterm m (Nat.lt_succ_self m) k hk)
      constructor
      · rw [hstep, hinner.1, ihm.1]
      · intro i hi
        have hiA : i < ((List.range m).foldl (fun acc j =>
            (List.range kk).foldl (fun acc2 k => List.zipWith (· + ·) acc2 (term j k)) acc)
            init).length := by rw [ihm.1]; exact hi
        rw [hstep, hinner.2 i hiA, ihm.2 i hi, Finset.sum_range_succ, add_assoc]

/-- C2: at the si-th requested confidence level `s` and the i-th query
point, `prediction_interval` returns
`t(alpha, dof) · sqrt(yerr² + Σⱼ Σₖ dfdp[j][i]·dfdp[k][i]·pcov[j,k])`
with `alpha = 1 − (1 − s/100)/2` and `dof` the value the code passes to
the t-quantile; and for a single-parameter model with derivative array
`xs` this equals `t · sqrt(yerr² + xs[i]² · pcov[0,0])`. -/
theorem c2_prediction_interval_band (tppf : ℝ → ℤ → ℝ) (dfdp pcov : List (List ℝ))
    (yerr : ℝ) (signif : List ℝ)
    (hrect : ∀ l ∈ dfdp, l.length = dfdp.headI.length)
    (si i : ℕ) (hsi : si < signif.length) (hi : i < dfdp.headI.length) :
    (((prediction_interval tppf dfdp pcov yerr signif).getD si []).getD i 0
      = tppf (1 - (1 - signif.getD si 0 / 100) / 2) (predictionIntervalDof dfdp)
          * Real.sqrt (yerr ^ 2
              + ∑ j ∈ Finset.range dfdp.length, ∑ k ∈ Finset.range dfdp.length,
                  (dfdp.getD j []).getD i 0 * (dfdp.getD k []).getD i 0
                    * (pcov.getD j []).getD k 0))
    ∧ ∀ xs : List ℝ, dfdp = [xs] →
        ((prediction_interval tppf dfdp pcov yerr signif).getD si []).getD i 0
          = tppf (1 - (1 - signif.getD si 0 / 100) / 2) ((xs.length : ℤ) - 1)
              * Real.sqrt (yerr ^ 2 + (xs.getD i 0) ^ 2 * (pcov.getD 0 []).getD 0 0) := by
  have hlen : ∀ j < dfdp.length, (dfdp.getD j []).length = dfdp.headI.length := by
    intro j hj
    rw [List.getD_eq_getElem _ _ hj]
    exact hrect _ (List.getElem_mem hj)
  have hterm : ∀ j < dfdp.length, ∀ k < dfdp.length,
      (List.zipWith (fun a b => a * b * ((pcov.getD j []).getD k 0))
        (dfdp.getD j []) (dfdp.getD k [])).length
        = (List.replicate dfdp.headI.length (0 : ℝ)).length := by
    intro j hj k hk
    rw [List.length_zipWith, hlen j hj, hlen k hk, min_self, List.length_replicate]
  have hfold := foldl_foldl_zipWith_add_spec
    (fun j k => List.zipWith (fun a b => a * b * ((pcov.getD j []).getD k 0))
      (dfdp.getD j []) (dfdp.getD k []))
    (List.replicate dfdp.headI.length (0 : ℝ)) dfdp.length dfdp.length hterm
  have hfoldLen : ((List.range dfdp.length).foldl (fun acc j =>
      (List.range dfdp.length).foldl (fun acc2 k => List.zipWith (· + ·) acc2
        (List.zipWith (fun a b => a * b * ((pcov.getD j []).getD k 0))
          (dfdp.getD j []) (dfdp.getD k []))) acc)
      (List.replicate dfdp.headI.length (0 : ℝ))).length = dfdp.headI.length := by
    rw [hfold.1, List.length_replicate]
  have hire : i < (List.replicate dfdp.headI.length (0 : ℝ)).length := by
    rw [List.length_replicate]; exact hi
  have hmain : ((prediction_interval tppf dfdp pcov yerr signif).getD si []).getD i 0
      = tppf (1 - (1 - signif.getD si 0 / 100) / 2) (predictionIntervalDof dfdp)
          * Real.sqrt (yerr ^ 2
              + ∑ j ∈ Finset.range dfdp.length, ∑ k ∈ Finset.range dfdp.length,
                  (dfdp.getD j []).getD i 0 * (dfdp.getD k []).getD i 0
                    * (pcov.getD j []).getD k 0) := by
    have hrow : (prediction_interval tppf dfdp pcov yerr signif).getD si []
        = ((List.range dfdp.length).foldl (fun acc j =>
            (List.range dfdp.length).foldl (fun acc2 k => List.zipWith (· + ·) acc2
              (List.zipWith (fun a b => a * b * ((pcov.getD j []).getD k 0))
                (dfdp.getD j []) (dfdp.getD k []))) acc)
            (List.replicate dfdp.headI.length (0 : ℝ))).map
            (fun di => tppf (1 - (1 - signif.getD si 0 / 100) / 2)
              (predictionIntervalDof dfdp) * Real.sqrt (yerr ^ 2 + di)) := by
      have hsit : si < (((signif.map fun s => 1 - (1 - s / 100) / 2).map
          (fun a => tppf a (predictionIntervalDof dfdp))).map
            (fun t => ((List.range dfdp.length).foldl (fun acc j =>
              (List.range dfdp.length).foldl (fun acc2 k => List.zipWith (· + ·) acc2
                (List.zipWith (fun a b => a * b * ((pcov.getD j []).getD k 0))
                  (dfdp.getD j []) (dfdp.getD k []))) acc)
              (List.replicate dfdp.headI.length (0 : ℝ))).map
              (fun di => t * Real.sqrt (yerr ^ 2 + di)))).length := by
        simp only [List.length_map]; exact hsi
      show (((signif.map fun s => 1 - (1 - s / 100) / 2).map
          (fun a => tppf a (predictionIntervalDof dfdp))).map
            (fun t => ((List.range dfdp.length).foldl (fun acc j =>
              (List.range dfdp.length).foldl (fun acc2 k => List.zipWith (· + ·) acc2
                (List.zipWith (fun a b => a * b * ((pcov.getD j []).getD k 0))
                  (dfdp.getD j []) (dfdp.getD k []))) acc)
              (List.replicate dfdp.headI.length (0 : ℝ))).map
              (fun di => t * Real.sqrt (yerr ^ 2 + di)))).getD si [] = _
      rw [List.getD_eq_getElem _ _ hsit, List.getElem_map, List.getElem_map,
        List.getElem_map, ← List.getD_eq_getElem signif (0 : ℝ) hsi]
    rw [hrow]
    have hii : i < (((List.range dfdp.length).foldl (fun acc j =>
        (List.range dfdp.length).foldl (fun acc2 k => List.zipWith (· + ·) acc2
          (List.zipWith (fun a b => a * b * ((pcov.getD j []).getD k 0))
            (dfdp.getD j []) (dfdp.getD k []))) acc)
        (List.replicate dfdp.headI.length (0 : ℝ))).map
        (fun di => tppf (1 - (1 - signif.getD si 0 / 100) / 2)
          (predictionIntervalDof dfdp) * Real.sqrt (yerr ^ 2 + di))).length := by
      rw [List.length_map, hfoldLen]; exact hi
    have hid : i < ((List.range dfdp.length).foldl (fun acc j =>
        (List.range dfdp.length).foldl (fun acc2 k => List.zipWith (· + ·) acc2
          (List.zipWith (fun a b => a * b * ((pcov.getD j []).getD k 0))
            (dfdp.getD j []) (dfdp.getD k []))) acc)
        (List.replicate dfdp.headI.length (0 : ℝ))).length := by
      rw [hfoldLen]; exact hi
    rw [List.getD_eq_getElem _ _ hii, List.getElem_map,
      ← List.getD_eq_getElem _ (0 : ℝ) hid, hfold.2 i hire,
      List.getD_eq_getElem _ (0 : ℝ) hire, List.getElem_replicate]
    have hsum : ∀ j ∈ Finset.range dfdp.length, ∀ k ∈ Finset.range dfdp.length,
        (List.zipWith (fun a b => a * b * ((pcov.getD j []).getD k 0))
          (dfdp.getD j []) (dfdp.getD k [])).getD i 0
          = (dfdp.getD j []).getD i 0 * (dfdp.getD k []).getD i 0
              * (pcov.getD j []).getD k 0 := by
      intro j hj k hk
      rw [Finset.mem_range] at hj hk
      have hiz : i < (List.zipWith (fun a b => a * b * ((pcov.getD j []).getD k 0))
          (dfdp.getD j []) (dfdp.getD k [])).length := by
        rw [List.length_zipWith, hlen j hj, hlen k hk, min_self]; exact hi
      rw [List.getD_eq_getElem _ _ hiz, List.getElem_zipWith,
        ← List.getD_eq_getElem _ (0 : ℝ) (by rw [hlen j hj]; exact hi),
        ← List.getD_eq_getElem _ (0 : ℝ) (by rw [hlen k hk]; exact hi)]
    rw [Finset.sum_congr rfl (fun j hj => Finset.sum_congr rfl (fun k hk => hsum j hj k hk))]
    ring_nf
  refine ⟨hmain, ?_⟩
  intro xs hx
  subst hx
  rw [hmain]
  have hxl : ([xs] : List (List ℝ)).headI = xs := rfl
  simp only [List.length_cons, List.length_nil, Finset.sum_range_one, List.getD]
  norm_num [predictionIntervalDof]
  ring_nf
  exact Or.inl trivial

/-- C2 witness: a concrete single-parameter, single-query evaluation
(derivative 2, parameter variance 4, residual scale 1, level 95) matching
the claimed closed form. -/
theorem c2_witness :
    ((prediction_interval (fun a _ => a) [[2]] [[4]] 1 [95]).getD 0 []).getD 0 0
      = (1 - (1 - 95 / 100) / 2) * Real.sqrt (1 ^ 2 + 2 * 2 * 4) := by
  have h := (c2_prediction_interval_band (fun a _ => a) [[2]] [[4]] 1 [95]
    (by simp) 0 0 (by norm_num) (by norm_num [List.headI])).1
  simpa [Finset.sum_range_one, List.getD] using h

/-- C7: for fixed derivatives, covariance and residual scale, the
prediction-band half-width is monotone in the requested confidence level
(assuming, as holds for the real Student-t quantile, that `tppf` is
monotone in its first argument): with levels `[s1, s2]` and `s1 ≤ s2`,
every entry of the first row is at most the matching entry of the second
row. -/
theorem c7_prediction_interval_monotone (tppf : ℝ → ℤ → ℝ)
    (hmono : ∀ d : ℤ, Monotone (fun a => tppf a d))
    (dfdp pcov : List (List ℝ)) (yerr : ℝ) (s1 s2 : ℝ) (h12 : s1 ≤ s2) (i : ℕ) :
    ((prediction_interval tppf dfdp pcov yerr [s1, s2]).getD 0 []).getD i 0
      ≤ ((prediction_interval tppf dfdp pcov yerr [s1, s2]).getD 1 []).getD i 0 := by
  have halpha : 1 - (1 - s1 / 100) / 2 ≤ 1 - (1 - s2 / 100) / 2 := by linarith
  have ht := hmono (predictionIntervalDof dfdp) halpha
  simp only [prediction_interval, List.map_cons, List.map_nil, List.getD_cons_zero,
    List.getD_cons_succ]
  by_cases hvi : i < ((List.range dfdp.length).foldl (fun acc j =>
      (List.range dfdp.length).foldl (fun acc2 k => List.zipWith (· + ·) acc2
        (List.zipWith (fun a b => a * b * ((pcov.getD j []).getD k 0))
          (dfdp.getD j []) (dfdp.getD k []))) acc)
      (List.replicate dfdp.headI.length (0 : ℝ))).length
  · have hm1 : i < (((List.range dfdp.length).foldl (fun acc j =>
        (List.range dfdp.length).foldl (fun acc2 k => List.zipWith (· + ·) acc2
          (List.zipWith (fun a b => a * b * ((pcov.getD j []).getD k 0))
            (dfdp.getD j []) (dfdp.getD k []))) acc)
        (List.replicate dfdp.headI.length (0 : ℝ))).map
        (fun di => tppf (1 - (1 - s1 / 100) / 2) (predictionIntervalDof dfdp)
          * Real.sqrt (yerr ^ 2 + di))).length := by
      rw [List.length_map]; exact hvi
    have hm2 : i < (((List.range dfdp.length).foldl (fun acc j =>
        (List.range dfdp.length).foldl (fun acc2 k => List.zipWith (· + ·) acc2
          (List.zipWith (fun a b => a * b * ((pcov.getD j []).getD k 0))
            (dfdp.getD j []) (dfdp.getD k []))) acc)
        (List.replicate dfdp.headI.length (0 : ℝ))).map
        (fun di => tppf (1 - (1 - s2 / 100) / 2) (predictionIntervalDof dfdp)
          * Real.sqrt (yerr ^ 2 + di))).length := by
      rw [List.length_map]; exact hvi
    rw [List.getD_eq_getElem _ _ hm1, List.getD_eq_getElem _ _ hm2,
      List.getElem_map, List.getElem_map]
    exact mul_le_mul_of_nonneg_right ht (Real.sqrt_nonneg _)
  · have hge : ((List.range dfdp.length).foldl (fun acc j =>
        (List.range dfdp.length).foldl (fun acc2 k => List.zipWith (· + ·) acc2
          (List.zipWith (fun a b => a * b * ((pcov.getD j []).getD k 0))
            (dfdp.getD j []) (dfdp.getD k []))) acc)
        (List.replicate dfdp.headI.length (0 : ℝ))).length ≤ i := Nat.le_of_not_lt hvi
    rw [List.getD_eq_default _ _ (by rw [List.length_map]; exact hge),
      List.getD_eq_default _ _ (by rw [List.length_map]; exact hge)]

/-- C7 witness: a concrete instance with a monotone quantile function and
levels 68 and 95 — the 68% half-width does not exceed the 95% one. -/
theorem c7_witness :
    ((prediction_interval (fun a _ => a) [[2]] [[1]] 0 [68, 95]).getD 0 []).getD 0 0
      ≤ ((prediction_interval (fun a _ => a) [[2]] [[1]] 0 [68, 95]).getD 1 []).getD 0 0 :=
  c7_prediction_interval_monotone (fun a _ => a) (fun _ => monotone_id)
    [[2]] [[1]] 0 68 95 (by norm_num) 0

/-- Every joined row records the known standard value it was joined
with: `standMean` is `some` at the row's key. -/
theorem mem_joinedStandardRows (sqrtF : α → α)
    (standMean : String → String → Option α) (df : List (Measurement α))
    (r : StandardElementRow α) (h : r ∈ joinedStandardRows sqrtF standMean df) :
    standMean r.standard r.element = some r.standardMean := by
  simp only [joinedStandardRows, List.mem_filterMap] at h
  obtain ⟨key, _, hmap⟩ := h
  cases hsm : standMean key.1 key.2 with
  | none => rw [hsm] at hmap; simp at hmap
  | some km =>
      rw [hsm] at hmap
      simp only [Option.map_some', Option.some.injEq] at hmap
      subst hmap
      simpa using hsm

/-- The rows of the group-level-filtered dataframe that belong to element
`el` are in bijection (same list, mapped to standards) with the eligible
standards of `el`. -/
theorem minMeasurementRows_standards_eq (sqrtF : α → α) (minMeasurements : ℕ)
    (standMean : String → String → Option α) (df : List (Measurement α)) (el : String) :
    (((minMeasurementRows sqrtF minMeasurements standMean df).filter
        (fun r => decide (r.element = el))).map (fun r => r.standard))
      = eligibleStandards minMeasurements standMean df el := by
  unfold minMeasurementRows joinedStandardRows eligibleStandards
  induction groupKeys df with
  | nil => simp
  | cons k ks ih =>
      obtain ⟨s, e⟩ := k
      rw [List.filterMap_cons]
      cases hsm : standMean s e with
      | none => simpa [List.filter_cons, hsm] using ih
      | some km =>
          by_cases he : e = el
          · subst he
            by_cases hn : minMeasurements ≤ (groupValues df (s, e)).length
            · simpa [List.filter_cons, hsm, hn] using ih
            · simpa [List.filter_cons, hsm, hn] using ih
          · by_cases hn : minMeasurements ≤ (groupValues df (s, e)).length
            · simpa [List.filter_cons, hsm, he, hn] using ih
            · simpa [List.filter_cons, hsm, he, hn] using ih

/-- The eligible-standards list has no duplicates: group keys are
distinct, and all keys kept for element `el` share the second component. -/
theorem eligibleStandards_nodup (minMeasurements : ℕ)
    (standMean : String → String → Option α)
    (df : List (Measurement α)) (el : String) :
    (eligibleStandards minMeasurements standMean df el).Nodup := by
  unfold eligibleStandards
  apply List.Nodup.map_on
  · intro x hx y hy hxy
    simp only [List.mem_filter, Bool.and_eq_true, decide_eq_true_eq] at hx hy
    have hx2 : x.2 = el := hx.2.1.1
    have hy2 : y.2 = el := hy.2.1.1
    exact Prod.ext hxy (hx2.trans hy2.symm)
  · exact (List.nodup_dedup _).filter _

/-- Every calibration row's element is the element of some processed
standard-element row: `calibrate` emits a row only for elements that
still have rows after the two elimination steps. -/
theorem mem_calibrate (chi2ppf95 : ℤ → α)
    (runODR : List α → List α → List (PyF α) → List α → Option (OdrOutput α))
    (standSig : String → String → α) (rows : List (StandardElementRow α))
    (c : CalibrationRow α) (h : c ∈ calibrate chi2ppf95 runODR standSig rows) :
    ∃ r ∈ rows, r.element = c.element := by
  simp only [calibrate, List.mem_filterMap] at h
  obtain ⟨el, _, hsome⟩ := h
  by_cases h0 : (rows.filter (fun r => decide (r.element = el))).length = 0
  · rw [if_pos h0] at hsome
    simp at hsome
  · rw [if_neg h0] at hsome
    have hpos : 0 < (rows.filter (fun r => decide (r.element = el))).length :=
      Nat.pos_of_ne_zero h0
    obtain ⟨r, hr⟩ := List.exists_mem_of_length_pos hpos
    rw [List.mem_filter, decide_eq_true_eq] at hr
    cases hodr : runODR ((rows.filter (fun r => decide (r.element = el))).map
        (fun r => r.meanOfMeans))
        ((rows.filter (fun r => decide (r.element = el))).map (fun r => r.standardMean))
        ((rows.filter (fun r => decide (r.element = el))).map (fun r => r.sig))
        ((rows.filter (fun r => decide (r.element = el))).map
          (fun r => standSig r.standard r.element / 2)) with
    | none => rw [hodr] at hsome; simp at hsome
    | some out =>
        rw [hodr] at hsome
        simp only [Option.some.injEq] at hsome
        refine ⟨r, hr.1, ?_⟩
        rw [hr.2, ← hsome]

/-- C8: an element receives a calibration row only if at least
`min_standards` distinct standards each contribute an eligible group of
the outlier-filtered measurements — a group with a known reference value
and at least `min_measurements` retained measurements.  (The group-level
threshold is applied inside `eligibleStandards` before the element-level
count, matching the code's elimination order.) -/
theorem c8_fit_requires_min_standards [FloorRing α] (sqrtF : α → α)
    (method : OutlierMethod) (threshold : Option α)
    (minMeasurements minStandards : ℕ)
    (standMean : String → String → Option α) (standSig : String → String → α)
    (chi2ppf95 : ℤ → α)
    (runODR : List α → List α → List (PyF α) → List α → Option (OdrOutput α))
    (raw : List (RawMeasurement α)) (el : String)
    (hel : el ∈ (calibrationPipeline sqrtF method threshold minMeasurements minStandards
        standMean standSig chi2ppf95 runODR raw).map (fun c => c.element)) :
    minStandards ≤ (eligibleStandards minMeasurements standMean
        (filteredMeasurements sqrtF method threshold raw) el).length
      ∧ (eligibleStandards minMeasurements standMean
          (filteredMeasurements sqrtF method threshold raw) el).Nodup := by
  refine ⟨?_, eligibleStandards_nodup _ _ _ _⟩
  rw [List.mem_map] at hel
  obtain ⟨c, hc, hcel⟩ := hel
  obtain ⟨r, hr, hrel⟩ := mem_calibrate _ _ _ _ _ hc
  rw [processFilteredStandards] at hr
  rw [List.mem_filter, decide_eq_true_eq] at hr
  have hcount := hr.2
  rw [← minMeasurementRows_standards_eq sqrtF minMeasurements standMean
    (filteredMeasurements sqrtF method threshold raw) el,
    List.length_map]
  have : r.element = el := hrel.trans hcel
  rw [this] at hcount
  exact hcount

/-- C8 witness: a concrete run (one standard, one element, one
measurement, thresholds 1) in which "Fe" is fitted, so at least one
distinct eligible standard exists. -/
theorem c8_witness :
    (1 ≤ (eligibleStandards (α := ℚ) 1 (fun _ _ => some 1)
        (filteredMeasurements id .noneM none [⟨"S1", "Fe", some 5⟩]) "Fe").length)
      ∧ (eligibleStandards (α := ℚ) 1 (fun _ _ => some 1)
          (filteredMeasurements id .noneM none [⟨"S1", "Fe", some 5⟩]) "Fe").Nodup :=
  c8_fit_requires_min_standards (α := ℚ) id .noneM none 1 1 (fun _ _ => some 1)
    (fun _ _ => 0) (fun _ => 0) (fun _ _ _ _ => some ⟨1, 1, 1, 1, 1⟩)
    [⟨"S1", "Fe", some 5⟩] "Fe" (by decide)

/-- C5 counterexample: the element "Fe" has a measurement but no
reference value, and the run's entire per-element output — the
calibration dataframe, the only place elements appear (the saved record
adds only filter metadata and per-standard counts; no failure map
exists) — is empty: "Fe" appears nowhere, with no reason string. -/
theorem c5_counterexample :
    (["Fe"] = ([⟨"S1", "Fe", some (5 : ℚ)⟩] : List (RawMeasurement ℚ)).map
        (fun r => r.quantity))
    ∧ calibrationPipeline (α := ℚ) id .noneM none 1 1 (fun _ _ => none)
        (fun _ _ => 0) (fun _ => 0) (fun _ _ _ _ => some ⟨1, 1, 1, 1, 1⟩)
        [⟨"S1", "Fe", some 5⟩] = [] := by
  exact ⟨rfl, by decide⟩

/-- C5 amended: an element with no reference value for any standard never
appears in the fit map; the pipeline produces no failure map, so such an
element simply does not occur in the output at all. -/
theorem c5_no_reference_never_fit [FloorRing α] (sqrtF : α → α)
    (method : OutlierMethod) (threshold : Option α)
    (minMeasurements minStandards : ℕ)
    (standMean : String → String → Option α) (standSig : String → String → α)
    (chi2ppf95 : ℤ → α)
    (runODR : List α → List α → List (PyF α) → List α → Option (OdrOutput α))
    (raw : List (RawMeasurement α)) (el : String)
    (hnoref : ∀ s, standMean s el = none) :
    el ∉ (calibrationPipeline sqrtF method threshold minMeasurements minStandards
        standMean standSig chi2ppf95 runODR raw).map (fun c => c.element) := by
  intro hel
  rw [List.mem_map] at hel
  obtain ⟨c, hc, hcel⟩ := hel
  obtain ⟨r, hr, hrel⟩ := mem_calibrate _ _ _ _ _ hc
  rw [processFilteredStandards] at hr
  rw [List.mem_filter] at hr
  have hr2 : r ∈ minMeasurementRows sqrtF minMeasurements standMean
      (filteredMeasurements sqrtF method threshold raw) := hr.1
  rw [minMeasurementRows, List.mem_filter] at hr2
  have hsm := mem_joinedStandardRows sqrtF standMean
    (filteredMeasurements sqrtF method threshold raw) r hr2.1
  rw [hrel.trans hcel] at hsm
  rw [hnoref r.standard] at hsm
  exact Option.noConfusion hsm

/-- C5 amended witness: a concrete run with no reference values at all,
in which "Fe" does not appear in the output. -/
theorem c5_witness :
    ("Fe") ∉ (calibrationPipeline (α := ℚ) id .noneM none 1 1 (fun _ _ => none)
        (fun _ _ => 0) (fun _ => 0) (fun _ _ _ _ => some ⟨1, 1, 1, 1, 1⟩)
        [⟨"S1", "Fe", some 5⟩]).map (fun c => c.element) :=
  c5_no_reference_never_fit (α := ℚ) id .noneM none 1 1 (fun _ _ => none)
    (fun _ _ => 0) (fun _ => 0) (fun _ _ _ _ => some ⟨1, 1, 1, 1, 1⟩)
    [⟨"S1", "Fe", some 5⟩] "Fe" (fun _ => rfl)

end NitonTools
